import Mathlib

/-!
Verification of the Encrypted LAN File Transfer Engine specification
against the repository's frontend source, together with a model of the
backend command surface described by the specification.

The frontend helpers (`getProgressPercentage`, `formatBytes`,
`getFileName`) are embedded directly from the Svelte/TypeScript source.
JavaScript numbers are modelled as exact rationals, `Math.round` as
`jsRound`, and strings as lists of characters.

The backend (registry, discovery service, transfer engine, crypto
session layer) is not part of the provided source; its operations are
modelled from the specification, each marked `Modelled from the spec:`
in its doc comment.
-/

/-! ## Frontend helpers, embedded from the source -/

/-- JavaScript `Math.round`: rounds half away from zero for positive
values, i.e. `Math.round(x) = ⌊x + 1/2⌋` (which also matches JavaScript
on negative halves, where `Math.round(-0.5) = 0`). -/
def jsRound (q : ℚ) : ℤ := ⌊q + 1 / 2⌋

/-- Embedded from `src/unnamed/part_000`, `getProgressPercentage`:
`if (transfer.size === 0) return 0; return Math.round((transfer.progress / transfer.size) * 100);` -/
def getProgressPercentage (progress size : ℤ) : ℤ :=
  if size = 0 then 0 else jsRound ((progress : ℚ) / (size : ℚ) * 100)

/-- Embedded from `src/unnamed/part_000`, `formatBytes`: the unit array
`const sizes = ['Bytes', 'KB', 'MB', 'GB'];`. -/
def byteSizes : List String := ["Bytes", "KB", "MB", "GB"]

/-- Embedded from `src/unnamed/part_000`, `formatBytes`: the unit index
`const i = Math.floor(Math.log(bytes) / Math.log(k));` with `k = 1024`,
read over exact real semantics: `⌊log bytes / log 1024⌋ = Nat.log 1024 bytes`
for `bytes ≥ 1`. -/
def byteUnitIndex (bytes : ℕ) : ℕ := Nat.log 1024 bytes

/-- Observable result of `formatBytes`: the displayed numeric value (an
exact rational, two-decimal rounded) and the unit looked up in
`byteSizes` (`none` models an out-of-bounds `sizes[i]`, JavaScript
`undefined`). -/
structure FormattedBytes where
  value : ℚ
  unit : Option String
deriving DecidableEq, Repr

/-- Embedded from `src/unnamed/part_000`, `formatBytes`:
`if (bytes === 0) return '0 Bytes'; ... return Math.round(bytes / Math.pow(k, i) * 100) / 100 + ' ' + sizes[i];` -/
def formatBytes (bytes : ℕ) : FormattedBytes :=
  if bytes = 0 then { value := 0, unit := some "Bytes" }
  else
    { value := (jsRound ((bytes : ℚ) / 1024 ^ byteUnitIndex bytes * 100) : ℚ) / 100,
      unit := byteSizes.get? (byteUnitIndex bytes) }

/-- Embedded from `src/my-tauri-app/src/lib/FileDropZone.svelte`,
`getFileName`: the separator class of the regex `/[\\/]/`. -/
def isSep (c : Char) : Bool := c = '/' || c = '\\'

/-- Embedded from `src/my-tauri-app/src/lib/FileDropZone.svelte`,
`getFileName`: `path.split(/[\\/]/)` on a string modelled as a list of
characters; as in JavaScript, the result always has at least one
element and adjacent separators yield empty fields. -/
def splitSeps : List Char → List (List Char)
  | [] => [[]]
  | c :: rest =>
    match splitSeps rest with
    | [] => [[]]
    | cur :: more => if isSep c then [] :: cur :: more else (c :: cur) :: more

/-- Embedded from `src/my-tauri-app/src/lib/FileDropZone.svelte`,
`getFileName`: `return path.split(/[\\/]/).pop() || path;` — the last
field of the split, falling back to the whole path when that field is
empty (the empty string is falsy in JavaScript). -/
def getFileName (path : List Char) : List Char :=
  let lastField := (splitSeps path).getLastD []
  if lastField.isEmpty then path else lastField

/-- Follows the claim's words for `getFileName`: the substring after the
last `/` or `\` separator (empty when the path is empty or ends in a
separator). Stated independently of the split-based code so the two can
be compared. -/
def afterLastSep : List Char → List Char
  | [] => []
  | c :: rest => if isSep c || rest.any isSep then afterLastSep rest else c :: rest

/-! ## Backend model: data model (§3 of the spec) -/

/-- Modelled from the spec: the transfer status enum
`{Pending, Sending, Receiving, Completed, Failed(reason)}` (§3). -/
inductive TransferStatus where
  | Pending
  | Sending
  | Receiving
  | Completed
  | Failed (reason : String)
deriving DecidableEq, Repr

/-- Terminal states are `Completed` and `Failed(reason)` (§4.3). -/
def TransferStatus.isTerminal : TransferStatus → Bool
  | .Completed => true
  | .Failed _ => true
  | _ => false

/-- Modelled from the spec: a Transfer record (§3): id, filename, size
(bytes, fixed at creation), progress (bytes transferred so far), status,
`encrypted` flag, and the two peer-identifier fields. -/
structure Transfer where
  id : ℕ
  filename : String
  size : ℕ
  progress : ℕ
  status : TransferStatus
  encrypted : Bool
  from_device : ℕ
  to_device : ℕ
deriving DecidableEq, Repr

/-- A transfer is active while its status is non-terminal. -/
def Transfer.isActive (t : Transfer) : Bool := !t.status.isTerminal

/-- A transfer references a device when either peer-identifier field
names it. -/
def Transfer.references (t : Transfer) (d : ℕ) : Bool :=
  t.from_device == d || t.to_device == d

/-- Modelled from the spec: the device status enum
`{Available, Busy, Offline}` (§3). -/
inductive DeviceStatus where
  | Available
  | Busy
  | Offline
deriving DecidableEq, Repr

/-- Modelled from the spec: the device type enum
`laptop|phone|desktop|tablet` (§3). -/
inductive DeviceType where
  | laptop
  | phone
  | desktop
  | tablet
deriving DecidableEq, Repr

/-- Modelled from the spec: a Device record (§3). Following the design
note of §9, `Busy` is not a stored flag: the registry keeps a
`base_status` (`Available`/`Offline`, maintained by the discovery
service) and derives `Busy` from the count of active transfers
referencing the device. `last_seen` is the time of the last
announcement, for the liveness sweep. -/
structure Device where
  id : ℕ
  name : String
  device_type : DeviceType
  ip : String
  port : ℕ
  base_status : DeviceStatus
  last_seen : ℕ
deriving DecidableEq, Repr

/-- Modelled from the spec: the Registry (§4.5), the single authority
owning all Device and Transfer records, plus the discovery-running flag
and the file server's bound port (§4.2, §4.4). -/
structure Registry where
  devices : List Device
  transfers : List Transfer
  discovery_running : Bool
  server_port : Option ℕ
deriving DecidableEq, Repr

/-- The empty registry at process start. -/
def initRegistry : Registry :=
  { devices := [], transfers := [], discovery_running := false, server_port := none }

/-! ## Backend model: operations (§4, §6 of the spec) -/

/-- Modelled from the spec: `start_discovery()` is idempotent — calling
it while already running is a no-op, not an error (§4.2). -/
def startDiscovery (reg : Registry) : Registry :=
  if reg.discovery_running then reg else { reg with discovery_running := true }

/-- Modelled from the spec: `stop_discovery()` halts broadcasting and
listening and is safe to call even if never started (§4.2). -/
def stopDiscovery (reg : Registry) : Registry :=
  { reg with discovery_running := false }

/-- Modelled from the spec: `start_file_server() → port` binds a socket
and returns the bound port; idempotent — starting twice returns the
existing port (§4.4, §6). `port` is the port the fresh bind would
obtain. -/
def startFileServer (reg : Registry) (port : ℕ) : ℕ × Registry :=
  match reg.server_port with
  | some p => (p, reg)
  | none => (port, { reg with server_port := some port })

/-- Modelled from the spec: a discovery announcement carrying identity,
name, device type, ip and listening port (§4.2, §6). -/
structure Announcement where
  dev_id : ℕ
  name : String
  device_type : DeviceType
  ip : String
  port : ℕ
deriving DecidableEq, Repr

/-- Modelled from the spec: on receipt of a peer announcement the
registry upserts the Device entry, resets its liveness timer and sets
status to Available (§4.2); `Busy` stays derived from active transfers,
per the §9 design note. -/
def upsertDevice (reg : Registry) (a : Announcement) (now : ℕ) : Registry :=
  if reg.devices.any (fun d => d.id == a.dev_id) then
    { reg with devices := reg.devices.map (fun d =>
        if d.id = a.dev_id then
          { d with name := a.name, device_type := a.device_type, ip := a.ip,
                   port := a.port, base_status := .Available, last_seen := now }
        else d) }
  else
    { reg with devices := reg.devices ++
        [{ id := a.dev_id, name := a.name, device_type := a.device_type,
           ip := a.ip, port := a.port, base_status := .Available, last_seen := now }] }

/-- A device is stale at time `now` when its last announcement is older
than the liveness timeout (§4.2). -/
def staleAt (now timeout : ℕ) (d : Device) : Bool :=
  d.last_seen + timeout < now

/-- Modelled from the spec: the liveness sweep (§4.2): any device whose
last announcement is older than the timeout is marked Offline; it is not
deleted. -/
def sweepDevices (reg : Registry) (now timeout : ℕ) : Registry :=
  { reg with devices := reg.devices.map (fun d =>
      if staleAt now timeout d then { d with base_status := .Offline } else d) }

/-- Update the transfer with the given id through `f`; the registry
serializes all transfer mutations (§4.5). -/
def updateTransfer (reg : Registry) (i : ℕ) (f : Transfer → Transfer) : Registry :=
  { reg with transfers := reg.transfers.map (fun t => if t.id = i then f t else t) }

/-- Modelled from the spec: `create_transfer` appends a new record;
records are retained until process exit (§3, §4.5). -/
def createTransfer (reg : Registry) (t : Transfer) : Registry :=
  { reg with transfers := reg.transfers ++ [t] }

/-- Modelled from the spec: the sender transitions `Pending → Sending`
once the outbound connection and session key are established (§4.3). -/
def setSending (reg : Registry) (i : ℕ) : Registry :=
  updateTransfer reg i (fun t => { t with status := .Sending })

/-- Modelled from the spec: `update_transfer_progress` — progress is
advanced after each chunk is flushed/appended (§4.3, §4.5). -/
def applyChunk (reg : Registry) (i : ℕ) (bytes : ℕ) : Registry :=
  updateTransfer reg i (fun t => { t with progress := t.progress + bytes })

/-- Modelled from the spec: the transition to `Completed` (§4.3). -/
def completeTransfer (reg : Registry) (i : ℕ) : Registry :=
  updateTransfer reg i (fun t => { t with status := .Completed })

/-- Modelled from the spec: the error taxonomy of §7. -/
inductive TransferError where
  | NetworkError
  | AuthenticationFailed
  | DecryptionFailed
  | ProtocolViolation
  | ResourceError
deriving DecidableEq, Repr

/-- Human-readable reason carried by `Failed(reason)` (§3, §7). -/
def TransferError.reason : TransferError → String
  | .NetworkError => "network error"
  | .AuthenticationFailed => "authentication failed"
  | .DecryptionFailed => "decryption failed"
  | .ProtocolViolation => "protocol violation"
  | .ResourceError => "resource error"

/-- Modelled from the spec: every failure path records a
`Failed(reason)` status (§7). -/
def failTransfer (reg : Registry) (i : ℕ) (e : TransferError) : Registry :=
  updateTransfer reg i (fun t => { t with status := .Failed e.reason })

/-- Number of active (non-terminal) transfers referencing a device —
the reference count prescribed by the §9 design note. -/
def activeCount (reg : Registry) (d : ℕ) : ℕ :=
  (reg.transfers.filter (fun t => t.isActive && t.references d)).length

/-- Observable status of a device: `Busy` while at least one active
transfer references it, otherwise the stored base status (§3, §9). -/
def deviceStatus (reg : Registry) (d : Device) : DeviceStatus :=
  if 0 < activeCount reg d.id then .Busy else d.base_status

/-- Modelled from the spec: a Device snapshot as returned by
`get_devices` (§6), with the derived status. -/
structure DeviceView where
  id : ℕ
  name : String
  device_type : DeviceType
  ip : String
  port : ℕ
  status : DeviceStatus
deriving DecidableEq, Repr

/-- Modelled from the spec: `get_devices` returns snapshots of the
current registry state, no side effect (§6). -/
def get_devices (reg : Registry) : List DeviceView :=
  reg.devices.map (fun d =>
    { id := d.id, name := d.name, device_type := d.device_type,
      ip := d.ip, port := d.port, status := deviceStatus reg d })

/-- Modelled from the spec: `get_transfers` returns snapshots of the
current registry state (§6). -/
def get_transfers (reg : Registry) : List Transfer :=
  reg.transfers

/-! ## Backend model: the step relation (§4.3, §5) -/

/-- Modelled from the spec: one serialized registry mutation (§4.5, §5).
Transfer guards quantify over the record carrying the mutated id — the
registry keeps ids unique, and only the engine context owning a transfer
mutates it (§3). `create` demands a fresh id, zero progress, the
`encrypted` flag, and an initial status of `Pending` (sender) or
`Receiving` (receiver); `chunk` only ever writes bytes of the source
file, so it cannot push `progress` past `size`; `complete` fires once
all `size` bytes are transferred and acknowledged/verified; `fail` is
available at every non-terminal point and is the only transition
available on an unrecoverable error (§7). -/
inductive Step : Registry → Registry → Prop
  | discovery_start (reg : Registry) : Step reg (startDiscovery reg)
  | discovery_stop (reg : Registry) : Step reg (stopDiscovery reg)
  | server_start (reg : Registry) (port : ℕ) : Step reg (startFileServer reg port).2
  | announce (reg : Registry) (a : Announcement) (now : ℕ) : Step reg (upsertDevice reg a now)
  | sweep (reg : Registry) (now timeout : ℕ) : Step reg (sweepDevices reg now timeout)
  | create (reg : Registry) (t : Transfer)
      (hfresh : ∀ u ∈ reg.transfers, u.id ≠ t.id)
      (hstatus : t.status = .Pending ∨ t.status = .Receiving)
      (hprog : t.progress = 0)
      (henc : t.encrypted = true) :
      Step reg (createTransfer reg t)
  | send_start (reg : Registry) (i : ℕ)
      (h : ∀ u ∈ reg.transfers, u.id = i → u.status = .Pending) :
      Step reg (setSending reg i)
  | chunk (reg : Registry) (i bytes : ℕ)
      (h : ∀ u ∈ reg.transfers, u.id = i →
        (u.status = .Sending ∨ u.status = .Receiving) ∧ u.progress + bytes ≤ u.size) :
      Step reg (applyChunk reg i bytes)
  | complete (reg : Registry) (i : ℕ)
      (h : ∀ u ∈ reg.transfers, u.id = i →
        (u.status = .Sending ∨ u.status = .Receiving) ∧ u.progress = u.size) :
      Step reg (completeTransfer reg i)
  | fail (reg : Registry) (i : ℕ) (e : TransferError)
      (h : ∀ u ∈ reg.transfers, u.id = i → u.status.isTerminal = false) :
      Step reg (failTransfer reg i e)

/-- Registry states reachable from process start by serialized
mutations. -/
def Reachable (reg : Registry) : Prop :=
  Relation.ReflTransGen Step initRegistry reg

/-! ## Cryptographic session layer (§4.1 of the spec) -/

/-- Modelled from the spec: the per-transfer symmetric session key
produced by `negotiate` (§4.1). -/
structure SessionKey where
  key : ℕ
deriving DecidableEq, Repr

/-- Keystream applied to one plaintext byte: an invertible (on bytes)
combination of the byte with the session key and the chunk index, so
ciphertext depends on both. -/
def encByte (k : SessionKey) (index b : ℕ) : ℕ :=
  (b + k.key + index) % 256

/-- Inverse of `encByte` on bytes. -/
def decByte (k : SessionKey) (index c : ℕ) : ℕ :=
  (c + 256 - (k.key + index) % 256) % 256

/-- Modelled from the spec: the authentication tag binding the
ciphertext to the session key and the chunk index (§4.1). The MAC is
idealized as an injective function of `(key, index, ciphertext)`,
reflecting the spec's requirement that tag verification fail
deterministically under a wrong key or wrong index. -/
def chunkTag (k : SessionKey) (index : ℕ) (c : List ℕ) : ℕ × ℕ × List ℕ :=
  (k.key, index, c)

/-- Ciphertext plus authentication tag for one chunk (§4.1). -/
structure EncChunk where
  ciphertext : List ℕ
  tag : ℕ × ℕ × List ℕ
deriving DecidableEq, Repr

/-- Modelled from the spec:
`encrypt(session, chunk_index, plaintext) → ciphertext+tag` (§4.1). -/
def encrypt (k : SessionKey) (index : ℕ) (plaintext : List ℕ) : EncChunk :=
  let c := plaintext.map (encByte k index)
  { ciphertext := c, tag := chunkTag k index c }

/-- Modelled from the spec: `DecryptionFailed` is raised when a tag
check fails (§4.1, §7). -/
inductive CryptoError where
  | DecryptionFailed
deriving DecidableEq, Repr

/-- Modelled from the spec: the matching `decrypt`, which verifies the
authentication tag against the supplied session key and chunk index and
only then recovers the plaintext; a failed tag check is an error, never
a plaintext (§4.1). -/
def decrypt (k : SessionKey) (index : ℕ) (ch : EncChunk) : Except CryptoError (List ℕ) :=
  if ch.tag = chunkTag k index ch.ciphertext then
    .ok (ch.ciphertext.map (decByte k index))
  else
    .error .DecryptionFailed

/-! ## Concrete registry states used as witnesses -/

/-- A receiver-side transfer of a 4-byte file, as created when an
inbound connection is accepted and the session negotiated. -/
def rxTransfer : Transfer :=
  { id := 0, filename := "photo.jpg", size := 4, progress := 0,
    status := .Receiving, encrypted := true, from_device := 1, to_device := 2 }

/-- The registry after accepting `rxTransfer` and receiving all 4 bytes
of the file. -/
def fullProgressRegistry : Registry :=
  applyChunk (createTransfer initRegistry rxTransfer) 0 4

/-- The registry after `rxTransfer` fails its final integrity check at
full progress. -/
def failedFullRegistry : Registry :=
  failTransfer fullProgressRegistry 0 .DecryptionFailed

/-- The record held for `rxTransfer` in `failedFullRegistry`. -/
def rxFull : Transfer :=
  { id := 0, filename := "photo.jpg", size := 4, progress := 4,
    status := .Failed "decryption failed", encrypted := true,
    from_device := 1, to_device := 2 }

/-- An announcement from one concrete peer. -/
def annX : Announcement :=
  { dev_id := 2, name := "Y", device_type := .laptop, ip := "192.168.0.2", port := 9000 }

/-- The registry after receiving `annX`. -/
def deviceRegistry : Registry := upsertDevice initRegistry annX 10

/-- The device record created for `annX`. -/
def devX : Device :=
  { id := 2, name := "Y", device_type := .laptop, ip := "192.168.0.2",
    port := 9000, base_status := .Available, last_seen := 10 }

/-- The registry after accepting `rxTransfer` (which references device
2) while `devX` is known. -/
def busyRegistry : Registry := createTransfer deviceRegistry rxTransfer

/-! ## Registry invariants -/

/-- Per-record invariant: progress is bounded by size, and a completed
transfer has transferred all of its bytes. -/
def transferInv (t : Transfer) : Prop :=
  t.progress ≤ t.size ∧ (t.status = .Completed → t.progress = t.size)

/-- Registry invariant: every transfer satisfies `transferInv`, the
stored device status is never the derived `Busy`, and transfer ids are
unique. -/
def registryInv (reg : Registry) : Prop :=
  (∀ t ∈ reg.transfers, transferInv t) ∧
  (∀ d ∈ reg.devices, d.base_status ≠ .Busy) ∧
  (reg.transfers.map Transfer.id).Nodup

@[simp] lemma startDiscovery_transfers (reg : Registry) :
    (startDiscovery reg).transfers = reg.transfers := by
  unfold startDiscovery; split <;> rfl

@[simp] lemma startDiscovery_devices (reg : Registry) :
    (startDiscovery reg).devices = reg.devices := by
  unfold startDiscovery; split <;> rfl

@[simp] lemma stopDiscovery_transfers (reg : Registry) :
    (stopDiscovery reg).transfers = reg.transfers := rfl

@[simp] lemma stopDiscovery_devices (reg : Registry) :
    (stopDiscovery reg).devices = reg.devices := rfl

@[simp] lemma startFileServer_transfers (reg : Registry) (p : ℕ) :
    (startFileServer reg p).2.transfers = reg.transfers := by
  unfold startFileServer; cases reg.server_port <;> rfl

@[simp] lemma startFileServer_devices (reg : Registry) (p : ℕ) :
    (startFileServer reg p).2.devices = reg.devices := by
  unfold startFileServer; cases reg.server_port <;> rfl

@[simp] lemma upsertDevice_transfers (reg : Registry) (a : Announcement) (now : ℕ) :
    (upsertDevice reg a now).transfers = reg.transfers := by
  unfold upsertDevice; split <;> rfl

@[simp] lemma sweepDevices_transfers (reg : Registry) (now timeout : ℕ) :
    (sweepDevices reg now timeout).transfers = reg.transfers := rfl

@[simp] lemma updateTransfer_devices (reg : Registry) (i : ℕ) (f : Transfer → Transfer) :
    (updateTransfer reg i f).devices = reg.devices := rfl

@[simp] lemma createTransfer_devices (reg : Registry) (t : Transfer) :
    (createTransfer reg t).devices = reg.devices := rfl

lemma mem_updateTransfer {reg : Registry} {i : ℕ} {f : Transfer → Transfer} {u : Transfer}
    (h : u ∈ (updateTransfer reg i f).transfers) :
    ∃ t ∈ reg.transfers, u = if t.id = i then f t else t := by
  unfold updateTransfer at h
  simp only [List.mem_map] at h
  obtain ⟨t, ht, rfl⟩ := h
  exact ⟨t, ht, rfl⟩

lemma updateTransfer_ids (f : Transfer → Transfer) (hf : ∀ t, (f t).id = t.id)
    (reg : Registry) (i : ℕ) :
    (updateTransfer reg i f).transfers.map Transfer.id = reg.transfers.map Transfer.id := by
  unfold updateTransfer
  simp only [List.map_map]
  refine List.map_congr_left (fun t _ => ?_)
  by_cases h : t.id = i
  · simp only [Function.comp_apply, if_pos h, hf]
  · simp only [Function.comp_apply, if_neg h]

lemma step_registryInv {reg reg' : Registry} (hstep : Step reg reg')
    (hinv : registryInv reg) : registryInv reg' := by
  obtain ⟨hT, hD, hN⟩ := hinv
  cases hstep with
  | discovery_start => exact ⟨by simpa using hT, by simpa using hD, by simpa using hN⟩
  | discovery_stop => exact ⟨by simpa using hT, by simpa using hD, by simpa using hN⟩
  | server_start port => exact ⟨by simpa using hT, by simpa using hD, by simpa using hN⟩
  | announce a now =>
    refine ⟨by simpa using hT, ?_, by simpa using hN⟩
    intro d hd
    unfold upsertDevice at hd
    split at hd
    · simp only [List.mem_map] at hd
      obtain ⟨d0, hd0, rfl⟩ := hd
      by_cases h : d0.id = a.dev_id
      · simp [if_pos h]
      · simpa [if_neg h] using hD d0 hd0
    · simp only [List.mem_append, List.mem_singleton] at hd
      rcases hd with hd | rfl
      · exact hD d hd
      · simp
  | sweep now timeout =>
    refine ⟨by simpa using hT, ?_, by simpa using hN⟩
    intro d hd
    unfold sweepDevices at hd
    simp only [List.mem_map] at hd
    obtain ⟨d0, hd0, rfl⟩ := hd
    by_cases h : staleAt now timeout d0 = true
    · simp [if_pos h]
    · simpa [if_neg h] using hD d0 hd0
  | create t hfresh hstatus hprog henc =>
    refine ⟨?_, by simpa using hD, ?_⟩
    · intro u hu
      unfold createTransfer at hu
      simp only [List.mem_append, List.mem_singleton] at hu
      rcases hu with hu | rfl
      · exact hT u hu
      · refine ⟨by simp [hprog], fun hc => ?_⟩
        rcases hstatus with hs | hs <;> rw [hs] at hc <;> exact absurd hc (by simp)
    · unfold createTransfer
      simp only [List.map_append, List.map_cons, List.map_nil, List.nodup_append]
      refine ⟨hN, List.nodup_singleton _, ?_⟩
      intro x hx hx'
      simp only [List.mem_map] at hx
      simp only [List.mem_singleton] at hx'
      obtain ⟨u, hu, rfl⟩ := hx
      exact hfresh u hu (hx' ▸ rfl)
  | send_start i h =>
    refine ⟨?_, by simpa using hD,
      updateTransfer_ids (fun t => { t with status := .Sending }) (fun t => rfl) reg i ▸ hN⟩
    intro u hu
    obtain ⟨t, ht, rfl⟩ := mem_updateTransfer hu
    by_cases hc : t.id = i
    · obtain ⟨h1, h2⟩ := hT t ht
      rw [if_pos hc]
      exact ⟨h1, by intro hcon; exact absurd hcon (by simp)⟩
    · rw [if_neg hc]
      exact hT t ht
  | chunk i bytes h =>
    refine ⟨?_, by simpa using hD,
      updateTransfer_ids (fun t => { t with progress := t.progress + bytes }) (fun t => rfl) reg i ▸ hN⟩
    intro u hu
    obtain ⟨t, ht, rfl⟩ := mem_updateTransfer hu
    by_cases hc : t.id = i
    · have hg := h t ht hc
      rw [if_pos hc]
      refine ⟨hg.2, fun hcon => ?_⟩
      rcases hg.1 with hs | hs <;> simp only at hcon <;> rw [hs] at hcon <;>
        exact absurd hcon (by simp)
    · rw [if_neg hc]
      exact hT t ht
  | complete i h =>
    refine ⟨?_, by simpa using hD,
      updateTransfer_ids (fun t => { t with status := .Completed }) (fun t => rfl) reg i ▸ hN⟩
    intro u hu
    obtain ⟨t, ht, rfl⟩ := mem_updateTransfer hu
    by_cases hc : t.id = i
    · have hg := h t ht hc
      rw [if_pos hc]
      exact ⟨hg.2 ▸ le_refl _, fun _ => hg.2⟩
    · rw [if_neg hc]
      exact hT t ht
  | fail i e h =>
    refine ⟨?_, by simpa using hD,
      updateTransfer_ids (fun t => { t with status := .Failed e.reason }) (fun t => rfl) reg i ▸ hN⟩
    intro u hu
    obtain ⟨t, ht, rfl⟩ := mem_updateTransfer hu
    by_cases hc : t.id = i
    · obtain ⟨h1, h2⟩ := hT t ht
      rw [if_pos hc]
      exact ⟨h1, by intro hcon; exact absurd hcon (by simp)⟩
    · rw [if_neg hc]
      exact hT t ht

lemma initRegistry_inv : registryInv initRegistry := by
  refine ⟨?_, ?_, ?_⟩ <;> simp [initRegistry]

lemma rtg_registryInv {reg reg' : Registry} (h : Relation.ReflTransGen Step reg reg')
    (hinv : registryInv reg) : registryInv reg' := by
  induction h with
  | refl => exact hinv
  | tail _ hstep ih => exact step_registryInv hstep ih

lemma reachable_registryInv {reg : Registry} (h : Reachable reg) : registryInv reg :=
  rtg_registryInv h initRegistry_inv

lemma mem_updateTransfer_of_unchanged {reg : Registry} {i : ℕ} {f : Transfer → Transfer}
    {t : Transfer} (ht : t ∈ reg.transfers) (h : t.id = i → f t = t) :
    t ∈ (updateTransfer reg i f).transfers := by
  unfold updateTransfer
  refine List.mem_map.mpr ⟨t, ht, ?_⟩
  by_cases hc : t.id = i
  · rw [if_pos hc, h hc]
  · rw [if_neg hc]

lemma terminal_mem_of_step {reg reg' : Registry} (hstep : Step reg reg') {t : Transfer}
    (ht : t ∈ reg.transfers) (hterm : t.status.isTerminal = true) : t ∈ reg'.transfers := by
  cases hstep with
  | discovery_start => simpa using ht
  | discovery_stop => simpa using ht
  | server_start port => simpa using ht
  | announce a now => simpa using ht
  | sweep now timeout => simpa using ht
  | create u hfresh hstatus hprog henc =>
    unfold createTransfer
    exact List.mem_append_left _ ht
  | send_start i h =>
    refine mem_updateTransfer_of_unchanged ht (fun hc => ?_)
    rw [h t ht hc] at hterm
    exact absurd hterm (by simp [TransferStatus.isTerminal])
  | chunk i bytes h =>
    refine mem_updateTransfer_of_unchanged ht (fun hc => ?_)
    rcases (h t ht hc).1 with hs | hs <;> rw [hs] at hterm <;>
      exact absurd hterm (by simp [TransferStatus.isTerminal])
  | complete i h =>
    refine mem_updateTransfer_of_unchanged ht (fun hc => ?_)
    rcases (h t ht hc).1 with hs | hs <;> rw [hs] at hterm <;>
      exact absurd hterm (by simp [TransferStatus.isTerminal])
  | fail i e h =>
    refine mem_updateTransfer_of_unchanged ht (fun hc => ?_)
    rw [h t ht hc] at hterm
    exact absurd hterm (by simp)

lemma terminal_mem_rtg {reg reg' : Registry} (h : Relation.ReflTransGen Step reg reg')
    {t : Transfer} (ht : t ∈ reg.transfers) (hterm : t.status.isTerminal = true) :
    t ∈ reg'.transfers := by
  induction h with
  | refl => exact ht
  | tail _ hstep ih => exact terminal_mem_of_step hstep ih hterm

lemma decByte_encByte (k : SessionKey) (index : ℕ) {b : ℕ} (hb : b < 256) :
    decByte k index (encByte k index b) = b := by
  unfold decByte encByte
  omega

/-! ## Lemmas about `splitSeps` and `afterLastSep` -/

lemma splitSeps_ne_nil (l : List Char) : splitSeps l ≠ [] := by
  cases l with
  | nil => simp [splitSeps]
  | cons c rest =>
    unfold splitSeps
    cases splitSeps rest with
    | nil => simp
    | cons cur more => by_cases h : isSep c = true <;> simp [h]

lemma splitSeps_no_sep {l : List Char} (h : l.any isSep = false) : splitSeps l = [l] := by
  induction l with
  | nil => rfl
  | cons c rest ih =>
    simp only [List.any_cons, Bool.or_eq_false_iff] at h
    unfold splitSeps
    rw [ih h.2]
    simp [h.1]

lemma splitSeps_two_le {l : List Char} (h : l.any isSep = true) :
    2 ≤ (splitSeps l).length := by
  induction l with
  | nil => simp at h
  | cons c rest ih =>
    unfold splitSeps
    cases hs : splitSeps rest with
    | nil => exact absurd hs (splitSeps_ne_nil rest)
    | cons cur more =>
      simp only [List.any_cons, Bool.or_eq_true] at h
      by_cases hc : isSep c = true
      · simp [hc]
      · rcases h with h | h
        · exact absurd h hc
        · have := ih h
          rw [hs] at this
          simp only [List.length_cons] at this ⊢
          simp [hc]
          omega

lemma getLastD_cons_of_ne_nil {α : Type} {l : List α} (h : l ≠ []) (a d : α) :
    (a :: l).getLastD d = l.getLastD d := by
  cases l with
  | nil => exact absurd rfl h
  | cons y t => simp [List.getLastD_cons]

lemma splitSeps_getLastD (l : List Char) : (splitSeps l).getLastD [] = afterLastSep l := by
  induction l with
  | nil => rfl
  | cons c rest ih =>
    unfold splitSeps afterLastSep
    cases hs : splitSeps rest with
    | nil => exact absurd hs (splitSeps_ne_nil rest)
    | cons cur more =>
      show (if isSep c = true then [] :: cur :: more else (c :: cur) :: more).getLastD [] =
        if (isSep c || rest.any isSep) = true then afterLastSep rest else c :: rest
      by_cases hsep : isSep c = true
      · rw [if_pos hsep, if_pos (by simp [hsep])]
        rw [← ih, hs]
        exact getLastD_cons_of_ne_nil (by simp) [] []
      · rw [if_neg hsep]
        by_cases hrest : rest.any isSep = true
        · have h2 := splitSeps_two_le hrest
          rw [hs] at h2
          have hmore : more ≠ [] := by
            cases more with
            | nil => simp at h2
            | cons y t => simp
          rw [if_pos (by simp [hrest] : (isSep c || rest.any isSep) = true)]
          rw [← ih, hs]
          rw [getLastD_cons_of_ne_nil hmore, getLastD_cons_of_ne_nil hmore]
        · have hrf : rest.any isSep = false := by simpa using hrest
          have hone : splitSeps rest = [rest] := splitSeps_no_sep hrf
          rw [hone] at hs
          injection hs with h1 h2
          subst h1
          subst h2
          rw [if_neg (by simp [hsep, hrf] : ¬(isSep c || rest.any isSep) = true)]
          rfl

lemma afterLastSep_no_sep {l : List Char} (h : l.any isSep = false) :
    afterLastSep l = l := by
  cases l with
  | nil => rfl
  | cons c rest =>
    simp only [List.any_cons, Bool.or_eq_false_iff] at h
    unfold afterLastSep
    rw [if_neg (by simp [h.1, h.2])]

lemma afterLastSep_eq_nil_iff (l : List Char) :
    afterLastSep l = [] ↔ l = [] ∨ ∃ c, l.getLast? = some c ∧ isSep c = true := by
  induction l with
  | nil => simp [afterLastSep]
  | cons c rest ih =>
    unfold afterLastSep
    cases rest with
    | nil =>
      by_cases hc : isSep c = true
      · simp [hc, afterLastSep]
      · simp [hc]
    | cons d rest2 =>
      rw [List.getLast?_cons_cons]
      by_cases hcond : (isSep c || (d :: rest2).any isSep) = true
      · rw [if_pos hcond, ih]
        constructor
        · rintro (h | h)
          · simp at h
          · exact Or.inr h
        · rintro (h | h)
          · simp at h
          · exact Or.inr h
      · rw [if_neg hcond]
        simp only [Bool.or_eq_true, not_or] at hcond
        constructor
        · intro h
          simp at h
        · rintro (h | ⟨e, he, hsepe⟩)
          · simp at h
          · exfalso
            have hmem : e ∈ d :: rest2 := List.mem_of_mem_getLast? he
            have : (d :: rest2).any isSep = true := List.any_eq_true.mpr ⟨e, hmem, hsepe⟩
            exact hcond.2 (by simpa using this)

/-! ## Reachability of the concrete witness states -/

lemma fullProgress_reachable : Reachable fullProgressRegistry := by
  have s1 : Step initRegistry (createTransfer initRegistry rxTransfer) :=
    Step.create initRegistry rxTransfer (by decide) (Or.inr rfl) rfl rfl
  have s2 : Step (createTransfer initRegistry rxTransfer) fullProgressRegistry :=
    Step.chunk (createTransfer initRegistry rxTransfer) 0 4 (by decide)
  exact Relation.ReflTransGen.tail (Relation.ReflTransGen.single s1) s2

lemma failedFull_reachable : Reachable failedFullRegistry :=
  Relation.ReflTransGen.tail fullProgress_reachable
    (Step.fail fullProgressRegistry 0 .DecryptionFailed (by decide))

lemma deviceRegistry_reachable : Reachable deviceRegistry :=
  Relation.ReflTransGen.single (Step.announce initRegistry annX 10)

lemma busyRegistry_reachable : Reachable busyRegistry :=
  Relation.ReflTransGen.tail deviceRegistry_reachable
    (Step.create deviceRegistry rxTransfer (by decide) (Or.inr rfl) rfl rfl)

/-! ## Claims -/

/-- C1, counterexample to the claim as stated: `failedFullRegistry` is a
reachable registry state whose only transfer has `progress = size` while
its status is `Failed "decryption failed"` — a terminal status other
than `Completed`, which by the terminal-freeze property can never become
`Completed`. The spec's own receiver path (§4.3) fails a transfer on a
final digest mismatch after all `size` bytes were received, so
`progress = size` does not imply the status is about to become or has
become `Completed`. -/
theorem progress_eq_size_not_completed_ce :
    Reachable failedFullRegistry ∧
    get_transfers failedFullRegistry = [rxFull] ∧
    rxFull.progress = rxFull.size ∧
    rxFull.status = .Failed "decryption failed" ∧
    rxFull.status.isTerminal = true ∧
    rxFull.status ≠ .Completed :=
  ⟨failedFull_reachable, by decide, by decide, by decide, by decide, by decide⟩

/-- C1 (amended): for every transfer observable through `get_transfers`,
at every reachable observation point the transfer's progress is at most
its size, and a transfer whose status is `Completed` has
`progress = size`. (The converse direction of the original claim fails:
a transfer can reach `progress = size` and then fail its final
integrity check or last-chunk acknowledgement, ending `Failed` — see the
counterexample.) -/
theorem progress_le_size_invariant {reg : Registry} (h : Reachable reg) :
    ∀ t ∈ get_transfers reg,
      t.progress ≤ t.size ∧ (t.status = .Completed → t.progress = t.size) :=
  fun t ht => (reachable_registryInv h).1 t ht

/-- Witness for the amended C1 at the concrete reachable state
`failedFullRegistry`. -/
theorem progress_le_size_invariant_witness :
    rxFull.progress ≤ rxFull.size ∧
      (rxFull.status = .Completed → rxFull.progress = rxFull.size) :=
  progress_le_size_invariant failedFull_reachable rxFull (by decide)

/-- C2: once a transfer is observed in a terminal state (`Completed` or
`Failed`), no subsequent sequence of registry operations ever changes
its status: the very record persists unchanged, and any record carrying
its id in any later state still has the same status. (The step relation
has no outgoing transitions from `Completed` or `Failed`: every
status-changing constructor guards on a non-terminal status.) -/
theorem terminal_status_frozen {reg reg' : Registry} (hreach : Reachable reg)
    (hsteps : Relation.ReflTransGen Step reg reg') {t : Transfer}
    (ht : t ∈ get_transfers reg) (hterm : t.status.isTerminal = true) :
    t ∈ get_transfers reg' ∧
      ∀ u ∈ get_transfers reg', u.id = t.id → u.status = t.status := by
  have hmem : t ∈ reg'.transfers := terminal_mem_rtg hsteps ht hterm
  refine ⟨hmem, fun u hu hid => ?_⟩
  have hinv := rtg_registryInv hsteps (reachable_registryInv hreach)
  have hu_eq : u = t := List.inj_on_of_nodup_map hinv.2.2 hu hmem hid
  rw [hu_eq]

/-- Witness for C2 at the concrete reachable state
`failedFullRegistry`, whose transfer is terminal, under further steps
(here the empty step sequence). -/
theorem terminal_status_frozen_witness :
    rxFull ∈ get_transfers failedFullRegistry ∧
      ∀ u ∈ get_transfers failedFullRegistry, u.id = rxFull.id → u.status = rxFull.status :=
  terminal_status_frozen failedFull_reachable Relation.ReflTransGen.refl
    (by decide) (by decide)

/-- C3: from any registry state in which the transfer with id `i` is
non-terminal, the failure transition for any error of the §7 taxonomy
(network, authentication, decryption, protocol, resource) is an
available step — no failure path leaves the transfer stuck in a
non-terminal state — and it is a total function of the registry (it
cannot crash). It records `Failed(reason)` on that transfer, visible
through `get_transfers`, while every other transfer record, the device
list, the discovery flag and the server port are unchanged. -/
theorem failure_reaches_failed_isolated {reg : Registry} (i : ℕ) (e : TransferError)
    (h : ∀ u ∈ get_transfers reg, u.id = i → u.status.isTerminal = false) :
    Step reg (failTransfer reg i e) ∧
    (∀ u ∈ get_transfers (failTransfer reg i e), u.id = i →
       u.status = .Failed e.reason) ∧
    (∀ u ∈ get_transfers reg, u.id = i →
       { u with status := .Failed e.reason } ∈ get_transfers (failTransfer reg i e)) ∧
    (∀ u ∈ get_transfers reg, u.id ≠ i → u ∈ get_transfers (failTransfer reg i e)) ∧
    (failTransfer reg i e).devices = reg.devices ∧
    (failTransfer reg i e).discovery_running = reg.discovery_running ∧
    (failTransfer reg i e).server_port = reg.server_port := by
  refine ⟨Step.fail reg i e h, ?_, ?_, ?_, rfl, rfl, rfl⟩
  · intro u hu hid
    obtain ⟨t, ht, rfl⟩ := mem_updateTransfer hu
    by_cases hc : t.id = i
    · rw [if_pos hc]
    · rw [if_neg hc] at hid ⊢
      exact absurd hid hc
  · intro u hu hid
    unfold failTransfer updateTransfer
    refine List.mem_map.mpr ⟨u, hu, ?_⟩
    rw [if_pos hid]
  · intro u hu hid
    exact mem_updateTransfer_of_unchanged hu (fun hc => absurd hc hid)

/-- Witness for C3: failing the in-flight transfer of
`fullProgressRegistry` with a network error is an available step. -/
theorem failure_reaches_failed_isolated_witness :
    Step fullProgressRegistry (failTransfer fullProgressRegistry 0 .NetworkError) ∧
      ∀ u ∈ get_transfers (failTransfer fullProgressRegistry 0 .NetworkError),
        u.id = 0 → u.status = .Failed "network error" := by
  have h := @failure_reaches_failed_isolated fullProgressRegistry 0 .NetworkError (by decide)
  exact ⟨h.1, h.2.1⟩

/-- C4: at every reachable registry state, a device's observable status
is `Busy` if and only if the registry holds at least one non-terminal
transfer referencing it; and when no such transfer exists (in
particular, after the last one reached a terminal state) the device
shows its stored status, which is `Available` or `Offline` (the latter
when a liveness timeout fired). -/
theorem busy_iff_active_transfer {reg : Registry} (h : Reachable reg) :
    ∀ d ∈ reg.devices,
      (deviceStatus reg d = .Busy ↔
        ∃ t ∈ get_transfers reg, t.status.isTerminal = false ∧
          (t.from_device = d.id ∨ t.to_device = d.id)) ∧
      ((¬∃ t ∈ get_transfers reg, t.status.isTerminal = false ∧
          (t.from_device = d.id ∨ t.to_device = d.id)) →
        deviceStatus reg d = d.base_status ∧
          (d.base_status = .Available ∨ d.base_status = .Offline)) := by
  intro d hd
  have hbase := (reachable_registryInv h).2.1 d hd
  have hkey : 0 < activeCount reg d.id ↔
      ∃ t ∈ get_transfers reg, t.status.isTerminal = false ∧
        (t.from_device = d.id ∨ t.to_device = d.id) := by
    unfold activeCount
    rw [List.length_pos, ne_eq, List.filter_eq_nil_iff]
    push_neg
    constructor
    · rintro ⟨t, ht, hp⟩
      refine ⟨t, ht, ?_⟩
      simpa [Transfer.isActive, Transfer.references] using hp
    · rintro ⟨t, ht, h1, h2⟩
      exact ⟨t, ht, by simp [Transfer.isActive, Transfer.references, h1, h2]⟩
  unfold deviceStatus
  by_cases hc : 0 < activeCount reg d.id
  · rw [if_pos hc]
    exact ⟨⟨fun _ => hkey.mp hc, fun _ => rfl⟩, fun hno => absurd (hkey.mp hc) hno⟩
  · rw [if_neg hc]
    refine ⟨⟨fun hb => absurd hb hbase, fun hex => absurd (hkey.mpr hex) hc⟩,
      fun _ => ⟨rfl, ?_⟩⟩
    cases hbs : d.base_status with
    | Available => exact Or.inl rfl
    | Busy => exact absurd hbs hbase
    | Offline => exact Or.inr rfl

/-- Witness for C4 at the concrete reachable state `busyRegistry`: the
device referenced by the active transfer `rxTransfer` shows `Busy`. -/
theorem busy_iff_active_transfer_witness :
    deviceStatus busyRegistry devX = .Busy :=
  ((busy_iff_active_transfer busyRegistry_reachable devX (by decide)).1).mpr
    ⟨rxTransfer, by decide, by decide, Or.inr (by decide)⟩

/-- C5: `start_discovery` and `start_file_server` are idempotent:
starting discovery twice leaves exactly the state one call produces (a
second call is a no-op, not an error), and a second `start_file_server`
returns the same port as the first call without changing the state. -/
theorem start_idempotent (reg : Registry) (p q : ℕ) :
    startDiscovery (startDiscovery reg) = startDiscovery reg ∧
    (startDiscovery reg).discovery_running = true ∧
    (startFileServer (startFileServer reg p).2 q).1 = (startFileServer reg p).1 ∧
    (startFileServer (startFileServer reg p).2 q).2 = (startFileServer reg p).2 := by
  refine ⟨?_, ?_, ?_, ?_⟩ <;>
    first
      | (cases hd : reg.discovery_running <;> simp [startDiscovery, hd])
      | (cases hp : reg.server_port <;> simp [startFileServer, hp])

/-- C6: the liveness sweep marks exactly the devices whose last
announcement is older than the timeout as `Offline`, leaves fresh
devices untouched, and deletes nothing (the device count is preserved
and every device id present before the sweep is still resolvable
afterwards, preserving transfer-history references); and no operation
other than the sweep ever sets a device `Offline` — announcements set
`Available`, and every transfer or service operation leaves the device
list unchanged. -/
theorem liveness_sweep_spec (reg : Registry) (now timeout : ℕ) :
    ((sweepDevices reg now timeout).devices.length = reg.devices.length) ∧
    (∀ d ∈ reg.devices,
      { d with base_status := if staleAt now timeout d then .Offline else d.base_status }
        ∈ (sweepDevices reg now timeout).devices) ∧
    (∀ i, (∃ d ∈ reg.devices, d.id = i) →
      ∃ d2 ∈ (sweepDevices reg now timeout).devices, d2.id = i) ∧
    (∀ (a : Announcement) (now2 : ℕ), ∀ d ∈ (upsertDevice reg a now2).devices,
      d.base_status = .Offline →
        ∃ d0 ∈ reg.devices, d0.id = d.id ∧ d0.base_status = .Offline) ∧
    ((startDiscovery reg).devices = reg.devices) ∧
    ((stopDiscovery reg).devices = reg.devices) ∧
    (∀ p, (startFileServer reg p).2.devices = reg.devices) ∧
    (∀ t, (createTransfer reg t).devices = reg.devices) ∧
    (∀ i f, (updateTransfer reg i f).devices = reg.devices) := by
  refine ⟨by simp [sweepDevices], ?_, ?_, ?_, by simp, by simp, by simp, fun t => rfl,
    fun i f => rfl⟩
  · intro d hd
    unfold sweepDevices
    refine List.mem_map.mpr ⟨d, hd, ?_⟩
    by_cases hstale : staleAt now timeout d = true
    · rw [if_pos hstale, if_pos hstale]
    · rw [if_neg hstale, if_neg hstale]
  · rintro i ⟨d0, hd0, hid⟩
    unfold sweepDevices
    refine ⟨_, List.mem_map_of_mem _ hd0, ?_⟩
    by_cases hstale : staleAt now timeout d0 = true
    · rw [if_pos hstale]
      exact hid
    · rw [if_neg hstale]
      exact hid
  · intro a now2 d hd hoff
    unfold upsertDevice at hd
    split at hd
    · simp only [List.mem_map] at hd
      obtain ⟨d0, hd0, rfl⟩ := hd
      by_cases hc : d0.id = a.dev_id
      · rw [if_pos hc] at hoff
        exact absurd hoff (by simp)
      · rw [if_neg hc] at hoff ⊢
        exact ⟨d0, hd0, rfl, hoff⟩
    · simp only [List.mem_append, List.mem_singleton] at hd
      rcases hd with hd | rfl
      · exact ⟨d, hd, rfl, hoff⟩
      · exact absurd hoff (by simp)

/-- Witness for C6: sweeping `deviceRegistry` at time 100 with timeout 5
marks the (stale) device `devX` Offline, and the single-device count is
preserved. -/
theorem liveness_sweep_spec_witness :
    { devX with
        base_status := if staleAt 100 5 devX then DeviceStatus.Offline else devX.base_status }
      ∈ (sweepDevices deviceRegistry 100 5).devices ∧
    (sweepDevices deviceRegistry 100 5).devices.length = deviceRegistry.devices.length :=
  ⟨(liveness_sweep_spec deviceRegistry 100 5).2.1 devX (by decide),
   (liveness_sweep_spec deviceRegistry 100 5).1⟩

/-- C7: for every session key, chunk index and byte-valued plaintext
chunk, decrypting the result of `encrypt` with the same key and the same
index yields the original plaintext, while decrypting with a different
key or a different chunk index deterministically returns
`DecryptionFailed` (never any plaintext): the tag binds the ciphertext
to both the key and the index. -/
theorem encrypt_decrypt_roundtrip (k k2 : SessionKey) (i i2 : ℕ) (msg : List ℕ)
    (hb : ∀ b ∈ msg, b < 256) :
    decrypt k i (encrypt k i msg) = .ok msg ∧
    (k2 ≠ k → decrypt k2 i (encrypt k i msg) = .error .DecryptionFailed) ∧
    (i2 ≠ i → decrypt k i2 (encrypt k i msg) = .error .DecryptionFailed) := by
  refine ⟨?_, ?_, ?_⟩
  · unfold decrypt encrypt
    rw [if_pos rfl]
    simp only [List.map_map]
    congr 1
    calc msg.map (decByte k i ∘ encByte k i)
        = msg.map id := List.map_congr_left (fun b hbm => decByte_encByte k i (hb b hbm))
      _ = msg := List.map_id msg
  · intro hk
    unfold decrypt encrypt chunkTag
    rw [if_neg ?_]
    intro he
    simp only [Prod.mk.injEq] at he
    apply hk
    cases k2
    cases k
    simpa using he.1.symm
  · intro hi
    unfold decrypt encrypt chunkTag
    rw [if_neg ?_]
    intro he
    simp only [Prod.mk.injEq] at he
    exact hi he.2.1.symm

/-- Witness for C7 at concrete inputs: round trip on a 3-byte chunk,
and deterministic failure under a wrong key and under a wrong index. -/
theorem encrypt_decrypt_roundtrip_witness :
    decrypt ⟨7⟩ 3 (encrypt ⟨7⟩ 3 [0, 65, 255]) = .ok [0, 65, 255] ∧
    decrypt ⟨8⟩ 3 (encrypt ⟨7⟩ 3 [0, 65, 255]) = .error .DecryptionFailed ∧
    decrypt ⟨7⟩ 4 (encrypt ⟨7⟩ 3 [0, 65, 255]) = .error .DecryptionFailed := by
  have h := encrypt_decrypt_roundtrip ⟨7⟩ ⟨8⟩ 3 4 [0, 65, 255] (by decide)
  exact ⟨h.1, h.2.1 (by decide), h.2.2 (by decide)⟩

/-- C8: `getProgressPercentage` is total: at `size = 0` it returns `0`
without dividing, otherwise it returns
`Math.round((progress / size) * 100)`; and under the precondition
`0 ≤ progress ≤ size` with `0 < size` the result lies between 0 and 100
inclusive. -/
theorem getProgressPercentage_total_bounded :
    (∀ p : ℤ, getProgressPercentage p 0 = 0) ∧
    (∀ p s : ℤ, s ≠ 0 →
      getProgressPercentage p s = jsRound ((p : ℚ) / (s : ℚ) * 100)) ∧
    (∀ p s : ℤ, 0 ≤ p → p ≤ s → 0 < s →
      0 ≤ getProgressPercentage p s ∧ getProgressPercentage p s ≤ 100) := by
  refine ⟨fun p => rfl, fun p s hs => by rw [getProgressPercentage, if_neg hs], ?_⟩
  intro p s hp hps hs
  have hsne : s ≠ 0 := by omega
  rw [getProgressPercentage, if_neg hsne]
  have hsq : (0 : ℚ) < (s : ℚ) := by exact_mod_cast hs
  have hq0 : (0 : ℚ) ≤ (p : ℚ) / (s : ℚ) * 100 := by
    apply mul_nonneg _ (by norm_num)
    apply div_nonneg _ (le_of_lt hsq)
    exact_mod_cast hp
  have hq100 : (p : ℚ) / (s : ℚ) * 100 ≤ 100 := by
    have hdiv : (p : ℚ) / (s : ℚ) ≤ 1 := by
      rw [div_le_one hsq]
      exact_mod_cast hps
    calc (p : ℚ) / (s : ℚ) * 100 ≤ 1 * 100 := by
          exact mul_le_mul_of_nonneg_right hdiv (by norm_num)
      _ = 100 := by norm_num
  constructor
  · rw [jsRound]
    exact Int.le_floor.mpr (by push_cast; linarith)
  · rw [jsRound]
    have hlt : ⌊(p : ℚ) / (s : ℚ) * 100 + 1 / 2⌋ < 101 := by
      rw [Int.floor_lt]
      push_cast
      linarith
    omega

/-- Witness for C8 at the concrete input `progress = 1`, `size = 2`. -/
theorem getProgressPercentage_total_bounded_witness :
    0 ≤ getProgressPercentage 1 2 ∧ getProgressPercentage 1 2 ≤ 100 :=
  getProgressPercentage_total_bounded.2.2 1 2 (by decide) (by decide) (by decide)

/-- C9: `formatBytes 0` displays `0 Bytes`; for `1 ≤ bytes < 1024^4` the
unit index `i = ⌊log bytes / log 1024⌋` (characterized by
`1024^i ≤ bytes < 1024^(i+1)`) is in bounds for the unit array
`['Bytes','KB','MB','GB']` and the displayed value is
`Math.round(bytes / 1024^i * 100) / 100` with the unit at index `i`;
for `bytes ≥ 1024^4` the unit index reaches or exceeds the array length,
so the lookup is out of bounds (JavaScript `undefined`). -/
theorem formatBytes_spec :
    formatBytes 0 = { value := 0, unit := some "Bytes" } ∧
    (∀ b : ℕ, 1 ≤ b → b < 1024 ^ 4 →
      1024 ^ byteUnitIndex b ≤ b ∧
      b < 1024 ^ (byteUnitIndex b + 1) ∧
      byteUnitIndex b < byteSizes.length ∧
      formatBytes b =
        { value := (jsRound ((b : ℚ) / 1024 ^ byteUnitIndex b * 100) : ℚ) / 100,
          unit := byteSizes.get? (byteUnitIndex b) } ∧
      (byteSizes.get? (byteUnitIndex b)).isSome = true) ∧
    (∀ b : ℕ, 1024 ^ 4 ≤ b →
      byteSizes.length ≤ byteUnitIndex b ∧ (formatBytes b).unit = none) := by
  refine ⟨rfl, ?_, ?_⟩
  · intro b hb1 hb4
    have hb0 : b ≠ 0 := by omega
    have h1 : 1024 ^ byteUnitIndex b ≤ b := Nat.pow_log_le_self 1024 hb0
    have h2 : b < 1024 ^ (byteUnitIndex b + 1) :=
      Nat.lt_pow_succ_log_self (by norm_num) b
    have h3 : byteUnitIndex b < 4 := Nat.log_lt_of_lt_pow hb0 hb4
    have hlen : byteUnitIndex b < byteSizes.length := by simpa [byteSizes] using h3
    refine ⟨h1, h2, hlen, ?_, ?_⟩
    · rw [formatBytes, if_neg hb0]
    · cases hg : byteSizes.get? (byteUnitIndex b) with
      | none =>
        rw [List.get?_eq_none] at hg
        omega
      | some u => rfl
  · intro b hb
    have hb0 : b ≠ 0 := by
      intro h0
      rw [h0] at hb
      exact absurd hb (by norm_num)
    have h4 : 4 ≤ byteUnitIndex b :=
      (Nat.pow_le_iff_le_log (by norm_num) hb0).mp hb
    have hlen : byteSizes.length ≤ byteUnitIndex b := by simpa [byteSizes] using h4
    refine ⟨hlen, ?_⟩
    rw [formatBytes, if_neg hb0]
    exact List.get?_eq_none.mpr hlen

/-- Witness for C9 at concrete inputs: 2048 bytes is in the KB range
with the unit index in bounds; `1024^4` bytes pushes the unit index out
of bounds. -/
theorem formatBytes_spec_witness :
    1024 ^ byteUnitIndex 2048 ≤ 2048 ∧
    byteUnitIndex 2048 < byteSizes.length ∧
    byteSizes.length ≤ byteUnitIndex (1024 ^ 4) := by
  have h := formatBytes_spec.2.1 2048 (by decide) (by decide)
  have h2 := formatBytes_spec.2.2 (1024 ^ 4) (le_refl _)
  exact ⟨h.1, h.2.2.1, h2.1⟩

/-- C10: `getFileName` returns the substring of the path after the last
`/` or `\` separator, except that when that substring is empty (the
path is empty or ends in a separator) it returns the full path
unchanged rather than the empty string. -/
theorem getFileName_after_last_sep (path : List Char) :
    getFileName path = (if afterLastSep path = [] then path else afterLastSep path) ∧
    (afterLastSep path = [] ↔
      path = [] ∨ ∃ c, path.getLast? = some c ∧ isSep c = true) := by
  refine ⟨?_, afterLastSep_eq_nil_iff path⟩
  simp only [getFileName]
  rw [splitSeps_getLastD]
  by_cases h : afterLastSep path = []
  · rw [if_pos h, h]
    simp
  · rw [if_neg h]
    rw [if_neg ?_]
    rw [List.isEmpty_iff]
    exact h
example : getProgressPercentage 1 2 = 50 := by
  unfold getProgressPercentage jsRound
  norm_num
example : getFileName "a/b.txt".data = "b.txt".data := by decide
example : getFileName "a/".data = "a/".data := by decide
example : afterLastSep "a/b.txt".data = "b.txt".data := by decide
